import Mathlib

/-!
Verification of the output-processing core of `esp_idf_monitor`
(`esp_idf_monitor/base/logger.py`): the `Logger` stateful line processor.

The byte/text stream is modelled as `List Char` (the code treats `str` and
`bytes` uniformly, with `\n` as the line terminator in both).  I/O effects
(console writes, log-file writes, yellow/red notices, address-matcher queries
and symbol-resolver invocations) are made explicit as an `Effect` trace, and
the nondeterministic environment (whether `open`/`write`/`close` raise, what
`datetime.now().strftime` returns, what the matchers and the resolver answer)
is passed in as parameters.
-/

/-- Output channel of a console write: `console.write_bytes` (mirrored device
text) or `yellow_print` (high-visibility warning channel). -/
inductive Channel
  | console
  | warn
deriving DecidableEq, Repr

/-- Side-channel notices issued via `yellow_print` / `red_print` in `logger.py`. -/
inductive Notice
  | loggingEnabled (name : List Char)
  | cannotCreate (msg : List Char)
  | loggingClosed (name : List Char)
  | cannotClose
  | cannotWrite
deriving DecidableEq, Repr

/-- Observable effects of the Logger operations. -/
inductive Effect
  | out (ch : Channel) (s : List Char)
  | logWrite (s : List Char)
  | notice (n : Notice)
  | queryApp (addr : Nat)
  | queryRom (addr : Nat)
  | resolveApp (tok : List Char)
  | resolveRom (tok : List Char)
deriving DecidableEq, Repr

/-- An open log file handle: its name, accumulated content, and whether the
underlying OS `write` / `close` calls raise (environment behaviour). -/
structure LogFile where
  name : List Char
  content : List Char
  write_fails : Bool
  close_fails : Bool
deriving DecidableEq, Repr

/-- The mutable per-session state of `Logger` (`__init__` fields that the
modelled operations read or write). -/
structure LoggerState where
  log_file : Option LogFile
  output_enabled : Bool
  start_of_line : Bool
  timestamps : Bool
  pc_address_buffer : List Nat
deriving DecidableEq, Repr

/-- `True` iff the string ends with the line terminator (`string.endswith(new_line_char)`). -/
def endsNL (s : List Char) : Bool := s.getLast? == some '\n'

/-- `string.replace(new_line_char, new_line_char + line_prefix)`: every `\n`
gets the line prefix `p` inserted right after it. -/
def expandNewlines (p : List Char) : List Char → List Char
  | [] => []
  | c :: cs =>
    if c = '\n' then c :: (p ++ expandNewlines p cs)
    else c :: expandNewlines p cs

/-- The timestamp-insertion block of `Logger.print` (`logger.py` lines
111–129), for a non-empty chunk `s`: prepend the line prefix `p` when at line
start, record whether the (prefixed) chunk ends with a newline, temporarily
strip that trailing newline, give every interior newline its own prefix, and
restore the trailing newline.  Returns the transformed chunk and the new
`_start_of_line`. -/
def formatTS (p : List Char) (sol : Bool) (s : List Char) : List Char × Bool :=
  let s1 := if sol then p ++ s else s
  let solN := endsNL s1
  let s2 := if solN then s1.dropLast else s1
  let s3 := expandNewlines p s2
  (if solN then s3 ++ ['\n'] else s3, solN)

/-- The string transformation performed by `Logger.print` on chunk `s`, and the
resulting `_start_of_line` flag. `t` is the timestamp text produced by
`datetime.datetime.now().strftime(self.timestamp_format)` for this call, and
the line prefix is `t + ' '`. -/
def printFormat (t : List Char) (st : LoggerState) (s : List Char) : List Char × Bool :=
  if s ≠ [] ∧ st.timestamps = true ∧ (st.output_enabled = true ∨ st.log_file.isSome = true) then
    formatTS (t ++ [' ']) st.start_of_line s
  else if s ≠ [] then (s, endsNL s)
  else (s, st.start_of_line)

namespace Logger

/-- `Logger.stop_logging`: if a log file is open, close it (reporting either
the closed file's name or, when `close` raises, a red-print error) and clear
the handle on every path (`finally: self._log_file = None`). -/
def stop_logging (st : LoggerState) : LoggerState × List Effect :=
  match st.log_file with
  | none => (st, [])
  | some f =>
    if f.close_fails then ({ st with log_file := none }, [Effect.notice Notice.cannotClose])
    else ({ st with log_file := none }, [Effect.notice (Notice.loggingClosed f.name)])

/-- `Logger.start_logging`: a no-op when a handle is already open; otherwise
attempt to open the (timestamp-named) file.  `openResult` is the outcome of
the `open` call: a fresh handle, or the exception message. Success and failure
are both reported via a notice and never propagate. -/
def start_logging (st : LoggerState) (openResult : Except (List Char) LogFile) :
    LoggerState × List Effect :=
  if st.log_file.isSome then (st, [])
  else
    match openResult with
    | Except.ok f => ({ st with log_file := some f }, [Effect.notice (Notice.loggingEnabled f.name)])
    | Except.error e => (st, [Effect.notice (Notice.cannotCreate e)])

/-- `Logger.toggle_logging`: stop if a handle is open, else start. -/
def toggle_logging (st : LoggerState) (openResult : Except (List Char) LogFile) :
    LoggerState × List Effect :=
  if st.log_file.isSome then stop_logging st else start_logging st openResult

/-- `Logger.print`: transform the chunk (timestamp machinery), update
`_start_of_line`, send the transformed chunk to the console printer when output
is enabled, and append it to the log file when one is open — a failing log
write red-prints once and calls `stop_logging`, and never propagates. -/
def print (t : List Char) (ch : Channel) (st : LoggerState) (s : List Char) :
    LoggerState × List Effect :=
  let fr := printFormat t st s
  let st1 : LoggerState := { st with start_of_line := fr.2 }
  let outE : List Effect := if st.output_enabled then [Effect.out ch fr.1] else []
  match st1.log_file with
  | none => (st1, outE)
  | some f =>
    if f.write_fails then
      let r := stop_logging st1
      (r.1, outE ++ [Effect.notice Notice.cannotWrite] ++ r.2)
    else
      ({ st1 with log_file := some { f with content := f.content ++ fr.1 } },
        outE ++ [Effect.logWrite fr.1])

end Logger

/-- Number of open log-file handles held by a state (a `Logger` holds at most
the single `_log_file` field). -/
def openHandles (st : LoggerState) : Nat := if st.log_file.isSome then 1 else 0

/-- Run a state-passing, output-emitting step function over a list,
concatenating the emitted output (the shape of every loop in the modelled
code). -/
def runFold {σ α β : Type} (g : σ → α → σ × List β) (st : σ) (xs : List α) : σ × List β :=
  xs.foldl (fun acc x => ((g acc.1 x).1, acc.2 ++ (g acc.1 x).2)) (st, [])

/-- `Logger.print` applied to a sequence of chunks in order, with all effects
concatenated. -/
def printChunks (t : List Char) (ch : Channel) (st : LoggerState) (cs : List (List Char)) :
    LoggerState × List Effect :=
  runFold (Logger.print t ch) st cs

/-- The bytes sent to channel `ch` of the console, in order. -/
def consoleBytes (ch : Channel) (effs : List Effect) : List Char :=
  (effs.filterMap (fun e => match e with
    | Effect.out c s => if c = ch then some s else none
    | _ => none)).flatten

/-- The payloads of the warning-channel (`yellow_print`) console writes, in
order, one entry per write. -/
def warnOuts (effs : List Effect) : List (List Char) :=
  effs.filterMap (fun e => match e with
    | Effect.out Channel.warn s => some s
    | _ => none)

/-! ## Address decoding (`handle_possible_pc_address_in_line`) -/

/-- State of the incremental UTF-8 decoder: accumulated code-point bits, how
many continuation bytes are still needed, and the valid range for the next
byte (the second byte of a sequence led by `E0`/`ED`/`F0`/`F4` has a narrowed
range, per the UTF-8 validity table). -/
structure Utf8State where
  acc : Nat
  need : Nat
  lo : Nat
  hi : Nat
deriving DecidableEq, Repr

/-- The decoder state with no sequence pending. -/
def utf8Idle : Utf8State := { acc := 0, need := 0, lo := 0x80, hi := 0xBF }

/-- Classify `b` as the first byte of a sequence: an ASCII byte is emitted
directly, a valid lead byte opens a pending sequence, any other byte is
invalid and dropped. -/
def utf8Start (b : Nat) : Utf8State × Option Char :=
  if b < 0x80 then (utf8Idle, some (Char.ofNat b))
  else if 0xC2 ≤ b ∧ b ≤ 0xDF then
    ({ acc := b - 0xC0, need := 1, lo := 0x80, hi := 0xBF }, none)
  else if b = 0xE0 then ({ acc := 0, need := 2, lo := 0xA0, hi := 0xBF }, none)
  else if b = 0xED then ({ acc := 0xD, need := 2, lo := 0x80, hi := 0x9F }, none)
  else if 0xE1 ≤ b ∧ b ≤ 0xEF then
    ({ acc := b - 0xE0, need := 2, lo := 0x80, hi := 0xBF }, none)
  else if b = 0xF0 then ({ acc := 0, need := 3, lo := 0x90, hi := 0xBF }, none)
  else if b = 0xF4 then ({ acc := 4, need := 3, lo := 0x80, hi := 0x8F }, none)
  else if 0xF1 ≤ b ∧ b ≤ 0xF3 then
    ({ acc := b - 0xF0, need := 3, lo := 0x80, hi := 0xBF }, none)
  else (utf8Idle, none)

/-- Process one byte: extend a pending sequence when `b` is a valid
continuation byte for it, emit the code point once complete; when `b` is not a
valid continuation, the pending (invalid) sequence is dropped and `b` is
re-examined as a start byte — the behaviour of `errors='ignore'`. -/
def utf8Step (st : Utf8State) (b : Nat) : Utf8State × List Char :=
  if st.need = 0 then
    let r := utf8Start b
    (r.1, r.2.toList)
  else if st.lo ≤ b ∧ b ≤ st.hi then
    let acc2 := st.acc * 0x40 + (b - 0x80)
    if st.need = 1 then (utf8Idle, [Char.ofNat acc2])
    else ({ acc := acc2, need := st.need - 1, lo := 0x80, hi := 0xBF }, [])
  else
    let r := utf8Start b
    (r.1, r.2.toList)

/-- `line.decode(errors='ignore')`: UTF-8 decoding of a byte list in which
invalid bytes (a stray continuation byte, an invalid lead byte, a sequence
broken off by an out-of-range byte, or a truncated final sequence) are
silently dropped. -/
def utf8DecodeIgnore (l : List Nat) : List Char :=
  (runFold utf8Step utf8Idle l).2

/-- Hexadecimal digit character (either case), the character class of the
address token pattern. -/
def isHexDigit (c : Char) : Bool :=
  (0x30 ≤ c.toNat ∧ c.toNat ≤ 0x39) ∨ (0x61 ≤ c.toNat ∧ c.toNat ≤ 0x66)
    ∨ (0x41 ≤ c.toNat ∧ c.toNat ≤ 0x46)

/-- Modelled from the spec: the token pattern `ADDRESS_RE` lives in
`constants.py`, which is not among the provided sources.  The spec describes it
as a bounded-width hex run "recognizable as a 32-bit address, e.g. `0x` + 6–8
hex digits"; we instantiate the fixed-width 32-bit variant — the literal `0x`
followed by exactly 8 hex digits — scanned left to right, non-overlapping,
resuming after each match and advancing one character after each mismatch,
as `re.finditer` does. -/
def findTokensF : Nat → List Char → List (List Char)
  | 0, _ => []
  | _, [] => []
  | fuel + 1, c :: cs =>
    if c = '0' then
      match cs with
      | 'x' :: d1 :: d2 :: d3 :: d4 :: d5 :: d6 :: d7 :: d8 :: rest =>
        if [d1, d2, d3, d4, d5, d6, d7, d8].all isHexDigit then
          ['0', 'x', d1, d2, d3, d4, d5, d6, d7, d8] :: findTokensF fuel rest
        else findTokensF fuel cs
      | _ => findTokensF fuel cs
    else findTokensF fuel cs

/-- The address-token scan of the decoded line (see `findTokensF` for the
modelled pattern; the fuel argument only bounds the recursion and one unit per
consumed character always suffices). -/
def findTokens (l : List Char) : List (List Char) := findTokensF l.length l

/-- Value of one hex digit character. -/
def hexVal (c : Char) : Nat :=
  if '0' ≤ c ∧ c ≤ '9' then c.toNat - '0'.toNat
  else if 'a' ≤ c ∧ c ≤ 'f' then c.toNat - 'a'.toNat + 10
  else if 'A' ≤ c ∧ c ≤ 'F' then c.toNat - 'A'.toNat + 10
  else 0

/-- `int(num, 16)` on a token of the form `0x…`: the `0x` marker is accepted
and the digits are read in base 16. -/
def parseHex (s : List Char) : Nat :=
  (match s with
    | '0' :: 'x' :: r => r
    | '0' :: 'X' :: r => r
    | r => r).foldl (fun a c => 16 * a + hexVal c) 0

/-- The collaborator boundary of address decoding: the app/ROM
`PcAddressMatcher.is_executable_address` answers (the matchers are built once
from the ELF section tables and never mutated), whether a ROM ELF is
configured, and the external `lookup_pc_address(num, toolchain_prefix,
elf_file, is_rom)` resolver, which returns a description or `None`. -/
structure DecodeCfg where
  enable_address_decoding : Bool
  appExec : Nat → Bool
  hasRom : Bool
  romExec : Nat → Bool
  lookup : List Char → Bool → Option (List Char)

/-- The translation computed for one token by the loop body of
`handle_possible_pc_address_in_line`: try the app ELF when the app matcher
says the address is executable; if that produced nothing and a ROM ELF is
available and its matcher matches, try the ROM ELF. -/
def tokTranslation (cfg : DecodeCfg) (tok : List Char) : Option (List Char) :=
  let n := parseHex tok
  let trApp := if cfg.appExec n then cfg.lookup tok false else none
  match trApp with
  | some msg => some msg
  | none =>
    if cfg.hasRom ∧ cfg.romExec n then cfg.lookup tok true else none

/-- One iteration of the `finditer` loop of
`handle_possible_pc_address_in_line`, with the matcher queries and resolver
invocations recorded in the effect trace; a found translation is printed
through `yellow_print`. -/
def handleToken (cfg : DecodeCfg) (t : List Char) (st : LoggerState) (tok : List Char) :
    LoggerState × List Effect :=
  let n := parseHex tok
  let effA := Effect.queryApp n :: (if cfg.appExec n then [Effect.resolveApp tok] else [])
  let trApp := if cfg.appExec n then cfg.lookup tok false else none
  let romConsulted : Bool := trApp = none ∧ cfg.hasRom
  let effR :=
    (if romConsulted then [Effect.queryRom n] else [])
      ++ (if romConsulted ∧ cfg.romExec n then [Effect.resolveRom tok] else [])
  match tokTranslation cfg tok with
  | some msg =>
    let r := Logger.print t Channel.warn st msg
    (r.1, effA ++ effR ++ r.2)
  | none => (st, effA ++ effR)

/-- `Logger.handle_possible_pc_address_in_line`: prepend and clear the pending
`_pc_address_buffer`, return early when address decoding is disabled, and
otherwise run the per-token loop over every `ADDRESS_RE` match of the
`errors='ignore'`-decoded line. -/
def handle_possible_pc_address_in_line (cfg : DecodeCfg) (t : List Char)
    (st : LoggerState) (line : List Nat) : LoggerState × List Effect :=
  let full := st.pc_address_buffer ++ line
  let st1 : LoggerState := { st with pc_address_buffer := [] }
  if cfg.enable_address_decoding = false then (st1, [])
  else runFold (handleToken cfg t) st1 (findTokens (utf8DecodeIgnore full))

/-!
Concrete states, files and configurations used to instantiate the claims
(witnesses and counterexamples).
-/

/-- A log file whose `write` raises (e.g. disk full). -/
def c3File : LogFile :=
  { name := ['l'], content := [], write_fails := true, close_fails := false }

/-- A state with `c3File` open, timestamps off, output on. -/
def c3State : LoggerState :=
  { log_file := some c3File, output_enabled := true, start_of_line := true,
    timestamps := false, pc_address_buffer := [] }

/-- A healthy open log file. -/
def c5File : LogFile :=
  { name := ['l'], content := ['a'], write_fails := false, close_fails := false }

/-- A state with `c5File` open and timestamps disabled. -/
def c5State : LoggerState :=
  { log_file := some c5File, output_enabled := true, start_of_line := true,
    timestamps := false, pc_address_buffer := [] }

/-- A healthy open log file. -/
def c7File : LogFile :=
  { name := ['l'], content := [], write_fails := false, close_fails := false }

/-- A second file that `open` could return. -/
def c7File2 : LogFile :=
  { name := ['m'], content := [], write_fails := false, close_fails := false }

/-- A state with `c7File` already open. -/
def c7State : LoggerState :=
  { log_file := some c7File, output_enabled := true, start_of_line := true,
    timestamps := false, pc_address_buffer := [] }

/-- A plain state: no log file, output on, timestamps off, empty token buffer. -/
def plainState : LoggerState :=
  { log_file := none, output_enabled := true, start_of_line := true,
    timestamps := false, pc_address_buffer := [] }

/-- Like `plainState` but with timestamps enabled. -/
def tsState : LoggerState :=
  { log_file := none, output_enabled := true, start_of_line := true,
    timestamps := true, pc_address_buffer := [] }

/-- A decoding configuration in which the app matcher claims every address yet
the app-side resolver finds nothing, and a ROM image is configured whose
resolver succeeds. -/
def c1Cfg : DecodeCfg :=
  { enable_address_decoding := true
    appExec := fun _ => true
    hasRom := true
    romExec := fun _ => true
    lookup := fun _ is_rom => if is_rom then some ['r', 'o', 'm'] else none }

/-- The decoding configuration of the spec's backtrace scenario: an app image
range covering both addresses of the line and a stub resolver. -/
def c6Cfg : DecodeCfg :=
  { enable_address_decoding := true
    appExec := fun n => decide (0x400d0000 ≤ n ∧ n < 0x400e0000)
    hasRom := false
    romExec := fun _ => false
    lookup := fun tok _ =>
      if tok = "0x400d1234".toList then some "func_a at a.c:10".toList
      else if tok = "0x400d5678".toList then some "func_b at b.c:20".toList
      else none }

/-- The byte line of the spec's backtrace scenario. -/
def c6Line : List Nat := "Backtrace: 0x400d1234 0x400d5678\n".toList.map Char.toNat

/-! ## Basic lemmas -/

theorem runFold_acc {σ α β : Type} (g : σ → α → σ × List β) :
    ∀ (xs : List α) (st : σ) (e0 : List β),
      xs.foldl (fun acc x => ((g acc.1 x).1, acc.2 ++ (g acc.1 x).2)) (st, e0)
        = ((runFold g st xs).1, e0 ++ (runFold g st xs).2) := by
  intro xs
  induction xs with
  | nil => intro st e0; simp [runFold]
  | cons x xs ih =>
    intro st e0
    simp only [runFold, List.foldl_cons, List.nil_append]
    rw [ih (g st x).1 (e0 ++ (g st x).2), ih (g st x).1 (g st x).2]
    simp [List.append_assoc]

theorem runFold_cons {σ α β : Type} (g : σ → α → σ × List β) (st : σ) (x : α) (xs : List α) :
    runFold g st (x :: xs)
      = ((runFold g (g st x).1 xs).1, (g st x).2 ++ (runFold g (g st x).1 xs).2) := by
  simp only [runFold, List.foldl_cons, List.nil_append]
  exact runFold_acc g xs (g st x).1 (g st x).2

theorem runFold_append {σ α β : Type} (g : σ → α → σ × List β) (st : σ) (xs ys : List α) :
    runFold g st (xs ++ ys)
      = ((runFold g (runFold g st xs).1 ys).1,
          (runFold g st xs).2 ++ (runFold g (runFold g st xs).1 ys).2) := by
  induction xs generalizing st with
  | nil => simp [runFold]
  | cons x xs ih =>
    rw [List.cons_append, runFold_cons, runFold_cons, ih]
    simp [List.append_assoc]

theorem getLast?_append_right {α : Type} (a b : List α) (h : b ≠ []) :
    (a ++ b).getLast? = b.getLast? := by
  rw [List.getLast?_append]
  cases hb : b.getLast? with
  | none => exact absurd (List.getLast?_eq_none_iff.mp hb) h
  | some c => simp

theorem endsNL_append (a b : List Char) (h : b ≠ []) : endsNL (a ++ b) = endsNL b := by
  simp [endsNL, getLast?_append_right a b h]

theorem endsNL_true_iff (s : List Char) : endsNL s = true ↔ ∃ s', s = s' ++ ['\n'] := by
  simp [endsNL, List.getLast?_eq_some_iff]

theorem expandNewlines_append (p a b : List Char) :
    expandNewlines p (a ++ b) = expandNewlines p a ++ expandNewlines p b := by
  induction a with
  | nil => simp [expandNewlines]
  | cons c cs ih =>
    by_cases h : c = '\n' <;> simp [expandNewlines, h, ih]

theorem expandNewlines_of_no_nl (p s : List Char) (h : '\n' ∉ s) :
    expandNewlines p s = s := by
  induction s with
  | nil => rfl
  | cons c cs ih =>
    simp only [List.mem_cons, not_or] at h
    simp [expandNewlines, Ne.symm h.1, ih h.2]

theorem expandNewlines_nl (p : List Char) : expandNewlines p ['\n'] = '\n' :: p := by
  simp [expandNewlines]

theorem expandNewlines_cons_nl (p s : List Char) :
    expandNewlines p ('\n' :: s) = '\n' :: (p ++ expandNewlines p s) := by
  simp [expandNewlines]

/-! ## The timestamp state machine -/

theorem formatTS_eq (p : List Char) (sol : Bool) (s : List Char) (hs : s ≠ []) :
    formatTS p sol s
      = (if endsNL s then
           expandNewlines p ((if sol then p else []) ++ s.dropLast) ++ ['\n']
         else expandNewlines p ((if sol then p else []) ++ s),
         endsNL s) := by
  have hpre : (if sol then p ++ s else s) = (if sol then p else []) ++ s := by
    cases sol <;> simp
  simp only [formatTS, hpre]
  rw [endsNL_append _ s hs, List.dropLast_append_of_ne_nil _ hs]
  cases hE : endsNL s <;> simp [hE]

theorem formatTS_append (p : List Char) (sol : Bool) (a b : List Char)
    (ha : a ≠ []) (hb : b ≠ []) (hp : '\n' ∉ p) :
    formatTS p sol (a ++ b)
      = ((formatTS p sol a).1 ++ (formatTS p (formatTS p sol a).2 b).1,
         (formatTS p (formatTS p sol a).2 b).2) := by
  have hab : a ++ b ≠ [] := by simp [ha]
  rw [formatTS_eq p sol (a ++ b) hab, formatTS_eq p sol a ha]
  rw [endsNL_append a b hb, List.dropLast_append_of_ne_nil a hb]
  have hep : expandNewlines p p = p := expandNewlines_of_no_nl p p hp
  cases hA : endsNL a with
  | false =>
    rw [formatTS_eq p false b hb]
    cases hB : endsNL b with
    | false =>
      simp [expandNewlines_append, List.append_assoc]
    | true =>
      simp [expandNewlines_append, List.append_assoc]
  | true =>
    rw [formatTS_eq p true b hb]
    obtain ⟨a', rfl⟩ := (endsNL_true_iff a).mp hA
    have hd : (a' ++ ['\n']).dropLast = a' := by simp
    cases hB : endsNL b with
    | false =>
      simp [hd, expandNewlines_append, expandNewlines_nl, expandNewlines_cons_nl, hep,
        List.append_assoc]
    | true =>
      simp [hd, expandNewlines_append, expandNewlines_nl, expandNewlines_cons_nl, hep,
        List.append_assoc]

/-! ## Lemmas about `Logger.print` and the logging operations -/

theorem stop_logging_log_file (st : LoggerState) :
    (Logger.stop_logging st).1.log_file = none := by
  cases hlf : st.log_file with
  | none => simp [Logger.stop_logging, hlf]
  | some f => cases hw : f.close_fails <;> simp [Logger.stop_logging, hlf, hw]

theorem stop_logging_start_of_line (st : LoggerState) :
    (Logger.stop_logging st).1.start_of_line = st.start_of_line := by
  cases hlf : st.log_file with
  | none => simp [Logger.stop_logging, hlf]
  | some f => cases hw : f.close_fails <;> simp [Logger.stop_logging, hlf, hw]

theorem stop_logging_timestamps (st : LoggerState) :
    (Logger.stop_logging st).1.timestamps = st.timestamps := by
  cases hlf : st.log_file with
  | none => simp [Logger.stop_logging, hlf]
  | some f => cases hw : f.close_fails <;> simp [Logger.stop_logging, hlf, hw]

theorem stop_logging_output_enabled (st : LoggerState) :
    (Logger.stop_logging st).1.output_enabled = st.output_enabled := by
  cases hlf : st.log_file with
  | none => simp [Logger.stop_logging, hlf]
  | some f => cases hw : f.close_fails <;> simp [Logger.stop_logging, hlf, hw]

theorem stop_logging_effects (st : LoggerState) :
    ∀ e ∈ (Logger.stop_logging st).2, ∃ n, e = Effect.notice n := by
  cases hlf : st.log_file with
  | none => simp [Logger.stop_logging, hlf]
  | some f => cases hw : f.close_fails <;> simp [Logger.stop_logging, hlf, hw]

theorem print_timestamps (t : List Char) (ch : Channel) (st : LoggerState) (s : List Char) :
    (Logger.print t ch st s).1.timestamps = st.timestamps := by
  unfold Logger.print
  cases hlf : st.log_file with
  | none => simp [hlf]
  | some f =>
    cases hw : f.write_fails <;> cases hc : f.close_fails <;>
      simp [hlf, hw, hc, Logger.stop_logging]

theorem print_output_enabled (t : List Char) (ch : Channel) (st : LoggerState) (s : List Char) :
    (Logger.print t ch st s).1.output_enabled = st.output_enabled := by
  unfold Logger.print
  cases hlf : st.log_file with
  | none => simp [hlf]
  | some f =>
    cases hw : f.write_fails <;> cases hc : f.close_fails <;>
      simp [hlf, hw, hc, Logger.stop_logging]

theorem print_start_of_line (t : List Char) (ch : Channel) (st : LoggerState) (s : List Char) :
    (Logger.print t ch st s).1.start_of_line = (printFormat t st s).2 := by
  unfold Logger.print
  cases hlf : st.log_file with
  | none => simp [hlf]
  | some f =>
    cases hw : f.write_fails <;> cases hc : f.close_fails <;>
      simp [hlf, hw, hc, Logger.stop_logging]

theorem print_consoleBytes (t : List Char) (ch : Channel) (st : LoggerState) (s : List Char)
    (hout : st.output_enabled = true) :
    consoleBytes ch (Logger.print t ch st s).2 = (printFormat t st s).1 := by
  unfold Logger.print
  cases hlf : st.log_file with
  | none => simp [hlf, hout, consoleBytes]
  | some f =>
    cases hw : f.write_fails with
    | false => simp [hlf, hw, hout, consoleBytes]
    | true =>
      cases hc : f.close_fails <;>
        simp [hlf, hw, hc, hout, consoleBytes, Logger.stop_logging]

theorem print_effects_shape (t : List Char) (ch : Channel) (st : LoggerState) (s : List Char) :
    ∀ e ∈ (Logger.print t ch st s).2,
      (∃ s', e = Effect.out ch s') ∨ (∃ s', e = Effect.logWrite s') ∨
        (∃ n, e = Effect.notice n) := by
  unfold Logger.print
  cases hlf : st.log_file with
  | none =>
    cases ho : st.output_enabled <;> simp [hlf, ho]
  | some f =>
    cases hw : f.write_fails with
    | false =>
      cases ho : st.output_enabled <;> simp [hlf, hw, ho]
    | true =>
      cases ho : st.output_enabled <;> cases hc : f.close_fails <;>
        simp [hlf, hw, ho, hc, Logger.stop_logging]

/-! ## Chunk-boundary invariance of `Logger.print` -/

theorem consoleBytes_append (ch : Channel) (a b : List Effect) :
    consoleBytes ch (a ++ b) = consoleBytes ch a ++ consoleBytes ch b := by
  simp [consoleBytes, List.filterMap_append]

theorem printFormat_of_flags (t : List Char) (st : LoggerState) (s : List Char)
    (hts : st.timestamps = true) (hout : st.output_enabled = true) (hs : s ≠ []) :
    printFormat t st s = formatTS (t ++ [' ']) st.start_of_line s := by
  simp [printFormat, hs, hts, hout]

theorem printFormat_nil (t : List Char) (st : LoggerState) :
    printFormat t st [] = ([], st.start_of_line) := by
  simp [printFormat]

theorem print_append_console (t : List Char) (ch : Channel) (st : LoggerState)
    (a b : List Char) (ha : a ≠ []) (hb : b ≠ []) (hts : st.timestamps = true)
    (hout : st.output_enabled = true) (hp : '\n' ∉ t ++ [' ']) :
    consoleBytes ch (Logger.print t ch st (a ++ b)).2
        = consoleBytes ch (Logger.print t ch st a).2
          ++ consoleBytes ch (Logger.print t ch (Logger.print t ch st a).1 b).2
      ∧ (Logger.print t ch st (a ++ b)).1.start_of_line
        = (Logger.print t ch (Logger.print t ch st a).1 b).1.start_of_line := by
  have hab : a ++ b ≠ [] := by simp [ha]
  have hts' : (Logger.print t ch st a).1.timestamps = true := by
    rw [print_timestamps]; exact hts
  have hout' : (Logger.print t ch st a).1.output_enabled = true := by
    rw [print_output_enabled]; exact hout
  have hsol' : (Logger.print t ch st a).1.start_of_line
      = (formatTS (t ++ [' ']) st.start_of_line a).2 := by
    rw [print_start_of_line, printFormat_of_flags t st a hts hout ha]
  have hcomp := formatTS_append (t ++ [' ']) st.start_of_line a b ha hb hp
  constructor
  · rw [print_consoleBytes t ch st (a ++ b) hout,
      print_consoleBytes t ch st a hout,
      print_consoleBytes t ch (Logger.print t ch st a).1 b hout',
      printFormat_of_flags t st (a ++ b) hts hout hab,
      printFormat_of_flags t st a hts hout ha,
      printFormat_of_flags t (Logger.print t ch st a).1 b hts' hout' hb,
      hsol', hcomp]
  · rw [print_start_of_line, print_start_of_line,
      printFormat_of_flags t st (a ++ b) hts hout hab,
      printFormat_of_flags t (Logger.print t ch st a).1 b hts' hout' hb,
      hsol', hcomp]

theorem flatten_ne_nil (cs : List (List Char)) (h0 : cs ≠ []) (h : ∀ c ∈ cs, c ≠ []) :
    cs.flatten ≠ [] := by
  cases cs with
  | nil => exact absurd rfl h0
  | cons c cs =>
    have hc : c ≠ [] := h c (by simp)
    cases c with
    | nil => exact absurd rfl hc
    | cons x xs => simp

theorem printChunks_join (t : List Char) (ch : Channel) :
    ∀ (cs : List (List Char)) (st : LoggerState), (∀ c ∈ cs, c ≠ []) →
      st.timestamps = true → st.output_enabled = true → '\n' ∉ t ++ [' '] →
      consoleBytes ch (printChunks t ch st cs).2
          = consoleBytes ch (Logger.print t ch st cs.flatten).2
        ∧ (printChunks t ch st cs).1.start_of_line
          = (Logger.print t ch st cs.flatten).1.start_of_line := by
  intro cs
  induction cs with
  | nil =>
    intro st hne hts hout hp
    constructor
    · rw [print_consoleBytes t ch st _ hout]
      simp [printChunks, runFold, consoleBytes, List.flatten, printFormat_nil]
    · rw [print_start_of_line]
      simp [printChunks, runFold, List.flatten, printFormat_nil]
  | cons c cs ih =>
    intro st hne hts hout hp
    have hc : c ≠ [] := hne c (by simp)
    have hts' : (Logger.print t ch st c).1.timestamps = true := by
      rw [print_timestamps]; exact hts
    have hout' : (Logger.print t ch st c).1.output_enabled = true := by
      rw [print_output_enabled]; exact hout
    rw [show printChunks t ch st (c :: cs) = runFold (Logger.print t ch) st (c :: cs) from rfl,
      runFold_cons]
    cases hcs : cs with
    | nil =>
      subst hcs
      simp [runFold, consoleBytes_append, consoleBytes]
    | cons c2 cs2 =>
      have hcs0 : cs ≠ [] := by rw [hcs]; simp
      rw [← hcs]
      have hfl : cs.flatten ≠ [] :=
        flatten_ne_nil cs hcs0 (fun x hx => hne x (by simp [hx]))
      have hflat : (c :: cs).flatten = c ++ cs.flatten := by simp
      have hstep := print_append_console t ch st c cs.flatten hc hfl hts hout hp
      have hih := ih (Logger.print t ch st c).1
        (fun x hx => hne x (by simp [hx])) hts' hout' hp
      simp only [printChunks] at hih
      constructor
      · rw [hflat, hstep.1, consoleBytes_append, hih.1]
      · rw [hflat, hstep.2, ← hih.2]

/-! ## Decoding lemmas -/

/-- A byte that is the ASCII code of a hexadecimal digit. -/
def hexDigitByte (b : Nat) : Bool :=
  (0x30 ≤ b ∧ b ≤ 0x39) ∨ (0x61 ≤ b ∧ b ≤ 0x66) ∨ (0x41 ≤ b ∧ b ≤ 0x46)

/-- A byte that can never start a decodable UTF-8 sequence: a stray
continuation byte, an overlong lead (`C0`/`C1`), or a byte above `F4`.  Such a
byte is dropped by `errors='ignore'` wherever it occurs outside a pending
valid sequence. -/
def undecodableByte (b : Nat) : Bool := (0x80 ≤ b ∧ b ≤ 0xC1) ∨ 0xF5 ≤ b

theorem utf8Start_ascii (b : Nat) (hb : b < 0x80) :
    utf8Start b = (utf8Idle, some (Char.ofNat b)) := by
  unfold utf8Start
  rw [if_pos hb]

theorem utf8Start_bad (b : Nat) (hb : undecodableByte b = true) :
    utf8Start b = (utf8Idle, none) := by
  have hb' : (0x80 ≤ b ∧ b ≤ 0xC1) ∨ 0xF5 ≤ b := by
    simpa [undecodableByte] using hb
  unfold utf8Start
  rw [if_neg, if_neg, if_neg, if_neg, if_neg, if_neg, if_neg, if_neg] <;> omega

theorem utf8Step_idle_ascii (b : Nat) (hb : b < 0x80) :
    utf8Step utf8Idle b = (utf8Idle, [Char.ofNat b]) := by
  unfold utf8Step
  rw [if_pos (show utf8Idle.need = 0 from rfl), utf8Start_ascii b hb]
  rfl

theorem utf8Step_idle_bad (b : Nat) (hb : undecodableByte b = true) :
    utf8Step utf8Idle b = (utf8Idle, []) := by
  unfold utf8Step
  rw [if_pos (show utf8Idle.need = 0 from rfl), utf8Start_bad b hb]
  rfl

theorem utf8Run_ascii (l : List Nat) (hl : ∀ b ∈ l, b < 0x80) :
    runFold utf8Step utf8Idle l = (utf8Idle, l.map Char.ofNat) := by
  induction l with
  | nil => simp [runFold]
  | cons b bs ih =>
    rw [runFold_cons, utf8Step_idle_ascii b (hl b (by simp))]
    rw [ih (fun x hx => hl x (by simp [hx]))]
    simp

theorem utf8Run_bad (l : List Nat) (hl : ∀ b ∈ l, undecodableByte b = true) :
    runFold utf8Step utf8Idle l = (utf8Idle, []) := by
  induction l with
  | nil => simp [runFold]
  | cons b bs ih =>
    rw [runFold_cons, utf8Step_idle_bad b (hl b (by simp))]
    rw [ih (fun x hx => hl x (by simp [hx]))]
    simp

theorem utf8DecodeIgnore_ascii (l : List Nat) (hl : ∀ b ∈ l, b < 0x80) :
    utf8DecodeIgnore l = l.map Char.ofNat := by
  simp [utf8DecodeIgnore, utf8Run_ascii l hl]

theorem utf8DecodeIgnore_merge (a junk b : List Nat)
    (ha : ∀ x ∈ a, x < 0x80) (hj : ∀ x ∈ junk, undecodableByte x = true)
    (hb : ∀ x ∈ b, x < 0x80) :
    utf8DecodeIgnore (a ++ junk ++ b) = (a ++ b).map Char.ofNat := by
  simp only [utf8DecodeIgnore]
  have h1 : runFold utf8Step utf8Idle (a ++ junk) = (utf8Idle, a.map Char.ofNat) := by
    rw [runFold_append, utf8Run_ascii a ha, utf8Run_bad junk hj]
    simp
  rw [show a ++ junk ++ b = (a ++ junk) ++ b from rfl, runFold_append, h1,
    utf8Run_ascii b hb]
  simp

/-! ## Token scanning lemmas -/

theorem findTokensF_shape (fuel : Nat) (l : List Char) :
    ∀ tok ∈ findTokensF fuel l, ∃ ds, tok = '0' :: 'x' :: ds ∧ ds.all isHexDigit = true := by
  induction fuel, l using findTokensF.induct with
  | case1 l => simp [findTokensF]
  | case2 t ht => cases t <;> simp [findTokensF]
  | case3 fuel d1 d2 d3 d4 d5 d6 d7 d8 rest hhex ih =>
    intro tok htok
    simp [findTokensF, hhex] at htok
    rcases htok with h | h
    · exact ⟨[d1, d2, d3, d4, d5, d6, d7, d8], h, hhex⟩
    · exact ih tok h
  | case4 fuel d1 d2 d3 d4 d5 d6 d7 d8 rest hhex ih =>
    intro tok htok
    simp [findTokensF, hhex] at htok
    exact ih tok htok
  | case5 fuel cs hno ih =>
    intro tok htok
    simp [findTokensF] at htok
    exact ih tok htok
  | case6 fuel c cs hc ih =>
    intro tok htok
    simp [findTokensF, hc] at htok
    exact ih tok htok

theorem findTokens_ascii (l : List Char) :
    ∀ tok ∈ findTokens l, ∀ c ∈ tok, c.toNat < 0x80 := by
  intro tok htok c hc
  obtain ⟨ds, rfl, hds⟩ := findTokensF_shape l.length l tok htok
  simp only [List.mem_cons] at hc
  rcases hc with rfl | rfl | hc
  · decide
  · decide
  · have := (List.all_eq_true.mp hds) c hc
    simp only [isHexDigit, decide_eq_true_eq, Bool.or_eq_true] at this
    omega

/-! ## Annotation lemmas -/

theorem warnOuts_append (a b : List Effect) :
    warnOuts (a ++ b) = warnOuts a ++ warnOuts b := by
  simp [warnOuts, List.filterMap_append]

theorem printFormat_fst_no_ts (t : List Char) (st : LoggerState) (s : List Char)
    (hts : st.timestamps = false) :
    (printFormat t st s).1 = s := by
  by_cases hs : s = [] <;> simp [printFormat, hs, hts]

theorem print_warnOuts (t : List Char) (st : LoggerState) (s : List Char)
    (hout : st.output_enabled = true) :
    warnOuts (Logger.print t Channel.warn st s).2 = [(printFormat t st s).1] := by
  unfold Logger.print
  cases hlf : st.log_file with
  | none => simp [hlf, hout, warnOuts]
  | some f =>
    cases hw : f.write_fails with
    | false => simp [hlf, hw, hout, warnOuts]
    | true =>
      cases hc : f.close_fails <;>
        simp [hlf, hw, hc, hout, warnOuts, Logger.stop_logging]

theorem handleToken_timestamps (cfg : DecodeCfg) (t : List Char) (st : LoggerState)
    (tok : List Char) :
    (handleToken cfg t st tok).1.timestamps = st.timestamps := by
  unfold handleToken
  cases h : tokTranslation cfg tok <;> simp [h, print_timestamps]

theorem handleToken_output_enabled (cfg : DecodeCfg) (t : List Char) (st : LoggerState)
    (tok : List Char) :
    (handleToken cfg t st tok).1.output_enabled = st.output_enabled := by
  unfold handleToken
  cases h : tokTranslation cfg tok <;> simp [h, print_output_enabled]

theorem handleToken_warnOuts (cfg : DecodeCfg) (t : List Char) (st : LoggerState)
    (tok : List Char) (hts : st.timestamps = false) (hout : st.output_enabled = true) :
    warnOuts (handleToken cfg t st tok).2 = (tokTranslation cfg tok).toList := by
  unfold handleToken
  cases h : tokTranslation cfg tok with
  | none =>
    simp only [h, warnOuts_append]
    by_cases ha : cfg.appExec (parseHex tok) = true <;>
      by_cases hr : ((if cfg.appExec (parseHex tok) = true then
          cfg.lookup tok false else none) = none ∧ cfg.hasRom = true) <;>
      by_cases hre : cfg.romExec (parseHex tok) = true <;>
      simp_all [warnOuts]
  | some msg =>
    simp only [h, warnOuts_append, print_warnOuts t st msg hout,
      printFormat_fst_no_ts t st msg hts]
    by_cases ha : cfg.appExec (parseHex tok) = true <;>
      by_cases hre : cfg.romExec (parseHex tok) = true <;>
      simp_all [warnOuts] <;> split <;> simp [warnOuts]

theorem queryRom_not_mem_print (t : List Char) (ch : Channel) (st : LoggerState)
    (s : List Char) (n : Nat) : Effect.queryRom n ∉ (Logger.print t ch st s).2 := by
  intro h
  rcases print_effects_shape t ch st s _ h with ⟨s', h'⟩ | ⟨s', h'⟩ | ⟨n', h'⟩ <;> simp at h'

theorem resolveApp_not_mem_print (t : List Char) (ch : Channel) (st : LoggerState)
    (s : List Char) (tok : List Char) :
    Effect.resolveApp tok ∉ (Logger.print t ch st s).2 := by
  intro h
  rcases print_effects_shape t ch st s _ h with ⟨s', h'⟩ | ⟨s', h'⟩ | ⟨n', h'⟩ <;> simp at h'

theorem openHandles_le_one (st : LoggerState) : openHandles st ≤ 1 := by
  unfold openHandles
  split <;> simp

theorem runFold_handleToken_warnOuts (cfg : DecodeCfg) (t : List Char) :
    ∀ (toks : List (List Char)) (st : LoggerState),
      st.timestamps = false → st.output_enabled = true →
      warnOuts (runFold (handleToken cfg t) st toks).2
        = toks.filterMap (tokTranslation cfg) := by
  intro toks
  induction toks with
  | nil => intro st hts hout; simp [runFold, warnOuts]
  | cons tok toks ih =>
    intro st hts hout
    rw [runFold_cons, warnOuts_append]  -- effects of head, then of the rest
    rw [handleToken_warnOuts cfg t st tok hts hout]
    rw [ih (handleToken cfg t st tok).1
      (by rw [handleToken_timestamps]; exact hts)
      (by rw [handleToken_output_enabled]; exact hout)]
    cases h : tokTranslation cfg tok <;> simp [h, List.filterMap_cons]

/-! ## Claim theorems -/

/-- C3: if a write to the open log file raises during `print`, the error is
red-printed exactly once and logging is automatically disabled (the handle is
closed and set to `None`); `print` returns normally (it is a total function
here — the exception is caught), and any `print` on a state with no open log
file performs no log write and reports no write error (its only effects are
console writes). -/
theorem c3_write_failure_disables_logging (t : List Char) (ch : Channel)
    (st : LoggerState) (s : List Char) (f : LogFile)
    (hlf : st.log_file = some f) (hw : f.write_fails = true) :
    (Logger.print t ch st s).1.log_file = none
      ∧ (Logger.print t ch st s).2.count (Effect.notice Notice.cannotWrite) = 1
      ∧ (∀ (t2 : List Char) (ch2 : Channel) (st2 : LoggerState) (s2 : List Char),
          st2.log_file = none →
          ∀ e ∈ (Logger.print t2 ch2 st2 s2).2, ∃ s', e = Effect.out ch2 s') := by
  refine ⟨?_, ?_, ?_⟩
  · unfold Logger.print
    simp only [hlf, hw]
    simp [stop_logging_log_file]
  · unfold Logger.print
    simp only [hlf, hw]
    cases ho : st.output_enabled <;>
      cases hc : f.close_fails <;>
      simp [ho, hc, hlf, Logger.stop_logging, List.count_cons, List.count_append]
  · intro t2 ch2 st2 s2 hl2 e he
    unfold Logger.print at he
    simp only [hl2] at he
    cases ho : st2.output_enabled <;> simp [ho] at he
    exact ⟨_, he⟩

/-- C3 witness: a concrete state with an open log file whose write raises. -/
theorem c3_write_failure_disables_logging_witness :
    c3State.log_file = some c3File ∧ c3File.write_fails = true
      ∧ (Logger.print ['T'] Channel.console c3State ['h', 'i']).1.log_file = none :=
  ⟨rfl, rfl,
    (c3_write_failure_disables_logging ['T'] Channel.console c3State ['h', 'i'] c3File
      rfl rfl).1⟩

/-- C4: when the `open` call in `start_logging` fails, the failure is reported
via a notice, the state is unchanged (the log handle remains `None`, so
logging stays disabled), and `start_logging` returns normally (the exception
is caught at this boundary). -/
theorem c4_open_failure_reported_nonfatal (st : LoggerState) (e : List Char)
    (hlf : st.log_file = none) :
    Logger.start_logging st (Except.error e)
      = (st, [Effect.notice (Notice.cannotCreate e)]) := by
  simp [Logger.start_logging, hlf]

/-- C4 witness at a concrete state. -/
theorem c4_open_failure_reported_nonfatal_witness :
    Logger.start_logging
        { log_file := none, output_enabled := true, start_of_line := true,
          timestamps := false, pc_address_buffer := [] } (Except.error ['d'])
      = ({ log_file := none, output_enabled := true, start_of_line := true,
           timestamps := false, pc_address_buffer := [] },
         [Effect.notice (Notice.cannotCreate ['d'])]) :=
  c4_open_failure_reported_nonfatal _ ['d'] rfl

/-- C5: with timestamps disabled, `print` passes the chunk through
byte-identically to every enabled sink: the console write is exactly the
chunk, and the (successful) log write appends exactly the chunk to the log
file's content. -/
theorem c5_no_timestamps_passthrough (t : List Char) (ch : Channel)
    (st : LoggerState) (s : List Char) (f : LogFile)
    (hts : st.timestamps = false) (hout : st.output_enabled = true)
    (hlf : st.log_file = some f) (hw : f.write_fails = false) :
    (Logger.print t ch st s).2 = [Effect.out ch s, Effect.logWrite s]
      ∧ (Logger.print t ch st s).1.log_file
        = some { f with content := f.content ++ s } := by
  unfold Logger.print
  simp only [hlf, hw]
  rw [printFormat_fst_no_ts t st s hts]
  simp [hout]

/-- C5 witness at a concrete state and chunk. -/
theorem c5_no_timestamps_passthrough_witness :
    c5State.timestamps = false
      ∧ (Logger.print ['T'] Channel.console c5State ['x', '\n', 'y']).2
        = [Effect.out Channel.console ['x', '\n', 'y'], Effect.logWrite ['x', '\n', 'y']] :=
  ⟨rfl,
    (c5_no_timestamps_passthrough ['T'] Channel.console c5State ['x', '\n', 'y'] c5File
      rfl rfl rfl rfl).1⟩

/-- C7: at most one log handle is open per state — `openHandles` is bounded by
one initially and after every operation — and `start_logging` is a strict
no-op (no state change, no effect, in particular no second `open`) when a
handle is already open. -/
theorem c7_single_log_handle (st : LoggerState) (f : LogFile)
    (r : Except (List Char) LogFile) (t : List Char) (ch : Channel) (s : List Char) :
    openHandles st ≤ 1
      ∧ (st.log_file = some f → Logger.start_logging st r = (st, []))
      ∧ openHandles (Logger.start_logging st r).1 ≤ 1
      ∧ openHandles (Logger.stop_logging st).1 ≤ 1
      ∧ openHandles (Logger.toggle_logging st r).1 ≤ 1
      ∧ openHandles (Logger.print t ch st s).1 ≤ 1 := by
  refine ⟨openHandles_le_one st, ?_, openHandles_le_one _, openHandles_le_one _,
    openHandles_le_one _, openHandles_le_one _⟩
  intro hlf
  simp [Logger.start_logging, hlf]

/-- C7 witness: the no-op case at a concrete state with an open handle. -/
theorem c7_single_log_handle_witness :
    c7State.log_file = some c7File
      ∧ Logger.start_logging c7State (Except.ok c7File2) = (c7State, []) :=
  ⟨rfl,
    (c7_single_log_handle c7State c7File (Except.ok c7File2) ['T'] Channel.console
      []).2.1 rfl⟩

/-- C8: printing an empty chunk never changes the line-start state — for every
prior state and flag combination `_start_of_line` is untouched — and no
timestamp is inserted: every console write this call makes carries the empty
payload. -/
theorem c8_empty_chunk_frame (t : List Char) (ch : Channel) (st : LoggerState) :
    (Logger.print t ch st []).1.start_of_line = st.start_of_line
      ∧ ∀ c s, Effect.out c s ∈ (Logger.print t ch st []).2 → s = [] := by
  constructor
  · rw [print_start_of_line, printFormat_nil]
  · intro c s hmem
    unfold Logger.print at hmem
    rw [printFormat_nil] at hmem
    cases hlf : st.log_file with
    | none =>
      simp only [hlf] at hmem
      cases ho : st.output_enabled <;> simp [ho] at hmem
      exact hmem.2
    | some f =>
      cases hw : f.write_fails with
      | false =>
        simp only [hlf, hw] at hmem
        cases ho : st.output_enabled <;> simp [ho, hw] at hmem
        exact hmem.2
      | true =>
        simp only [hlf, hw] at hmem
        cases ho : st.output_enabled <;> cases hc : f.close_fails <;>
          simp [ho, hw, hc, Logger.stop_logging, hlf] at hmem
        · exact hmem.2
        · exact hmem.2

/-- C8 witness: a concrete mid-line state with timestamps on is unchanged by
an empty print. -/
theorem c8_empty_chunk_frame_witness :
    (Logger.print ['T'] Channel.console
        { log_file := none, output_enabled := true, start_of_line := false,
          timestamps := true, pc_address_buffer := [] } []).1.start_of_line = false :=
  (c8_empty_chunk_frame ['T'] Channel.console _).1

/-- C10: `stop_logging` clears the log handle on every exit path — also when
the underlying `close` raises — so after any `stop_logging` the handle is
`None` and a subsequent `start_logging` can open a fresh file. -/
theorem c10_stop_logging_clears_handle (st : LoggerState) (f2 : LogFile) :
    (Logger.stop_logging st).1.log_file = none
      ∧ Logger.start_logging (Logger.stop_logging st).1 (Except.ok f2)
        = ({ (Logger.stop_logging st).1 with log_file := some f2 },
           [Effect.notice (Notice.loggingEnabled f2.name)]) := by
  refine ⟨stop_logging_log_file st, ?_⟩
  simp [Logger.start_logging, stop_logging_log_file st]

/-- C6: for every processed line (with decoding enabled, output shown and
timestamps off), the warning-channel writes produced by
`handle_possible_pc_address_in_line` are exactly the successful resolutions of
the line's candidate tokens, one annotation line per resolved token, in the
tokens' left-to-right order — and they go through the `yellow_print` channel,
distinct from the mirrored device text. -/
theorem c6_annotations_order (cfg : DecodeCfg) (t : List Char) (st : LoggerState)
    (line : List Nat) (hdec : cfg.enable_address_decoding = true)
    (hts : st.timestamps = false) (hout : st.output_enabled = true) :
    warnOuts (handle_possible_pc_address_in_line cfg t st line).2
      = (findTokens (utf8DecodeIgnore (st.pc_address_buffer ++ line))).filterMap
          (tokTranslation cfg) := by
  unfold handle_possible_pc_address_in_line
  simp only [hdec]
  rw [if_neg (by simp)]
  exact runFold_handleToken_warnOuts cfg t _ _ (by simp [hts]) (by simp [hout])

/-- C6 witness: the spec's backtrace scenario — two in-range addresses resolve
to two annotation lines in token order. -/
theorem c6_annotations_order_witness :
    warnOuts (handle_possible_pc_address_in_line c6Cfg [] plainState c6Line).2
      = ["func_a at a.c:10".toList, "func_b at b.c:20".toList] :=
  (c6_annotations_order c6Cfg [] plainState c6Line rfl rfl rfl).trans (by decide)

/-- C9: `handle_possible_pc_address_in_line` scans the `errors='ignore'`
decoding of the byte line, in which undecodable bytes are silently removed:
two hex-digit runs separated only by undecodable bytes decode to the single
contiguous run of the two concatenated, the scan sees exactly what it would
see had the junk bytes never been present, and every character of every
candidate token the scanner produces is a plain ASCII character (so a byte
that failed to decode can never appear in a token). -/
theorem c9_decode_ignore_merges_hex_runs (a junk b : List Nat)
    (ha : ∀ x ∈ a, hexDigitByte x = true)
    (hj : ∀ x ∈ junk, undecodableByte x = true)
    (hb : ∀ x ∈ b, hexDigitByte x = true) :
    utf8DecodeIgnore (a ++ junk ++ b) = (a ++ b).map Char.ofNat
      ∧ utf8DecodeIgnore (a ++ junk ++ b) = utf8DecodeIgnore (a ++ b)
      ∧ findTokens (utf8DecodeIgnore (a ++ junk ++ b))
        = findTokens (utf8DecodeIgnore (a ++ b))
      ∧ (∀ (l : List Nat) (tok : List Char), tok ∈ findTokens (utf8DecodeIgnore l) →
          ∀ c ∈ tok, c.toNat < 0x80) := by
  have hlt : ∀ x : Nat, hexDigitByte x = true → x < 0x80 := by
    intro x hx
    simp only [hexDigitByte, decide_eq_true_eq, Bool.or_eq_true] at hx
    omega
  have ha' : ∀ x ∈ a, x < 0x80 := fun x hx => hlt x (ha x hx)
  have hb' : ∀ x ∈ b, x < 0x80 := fun x hx => hlt x (hb x hx)
  have h1 := utf8DecodeIgnore_merge a junk b ha' hj hb'
  have h2 : utf8DecodeIgnore (a ++ b) = (a ++ b).map Char.ofNat :=
    utf8DecodeIgnore_ascii (a ++ b) (by
      intro x hx
      rcases List.mem_append.mp hx with h | h
      · exact ha' x h
      · exact hb' x h)
  exact ⟨h1, h1.trans h2.symm, by rw [h1, h2], fun l tok ht c hc =>
    findTokens_ascii (utf8DecodeIgnore l) tok ht c hc⟩

/-- C9 witness: `"4" ++ [0x80, 0xFF] ++ "5"` decodes to the contiguous run
`"45"`. -/
theorem c9_decode_ignore_merges_hex_runs_witness :
    (∀ x ∈ [0x34], hexDigitByte x = true)
      ∧ (∀ x ∈ [0x80, 0xFF], undecodableByte x = true)
      ∧ (∀ x ∈ [0x35], hexDigitByte x = true)
      ∧ utf8DecodeIgnore ([0x34] ++ [0x80, 0xFF] ++ [0x35])
        = (([0x34] ++ [0x35]).map Char.ofNat) :=
  ⟨by decide, by decide, by decide,
    (c9_decode_ignore_merges_hex_runs [0x34] [0x80, 0xFF] [0x35]
      (by decide) (by decide) (by decide)).1⟩

/-- C1 counterexample: with a configured ROM image, a token whose parsed
address the app matcher reports as executable but whose app-side resolution
returns none *does* lead to a ROM-matcher query — refuting "the ROM matcher is
not consulted for that token". -/
theorem c1_counterexample :
    c1Cfg.appExec (parseHex "0x40000000".toList) = true
      ∧ Effect.queryRom (parseHex "0x40000000".toList) ∈
          (handle_possible_pc_address_in_line c1Cfg [] plainState
            ("PC: 0x40000000".toList.map Char.toNat)).2 := by
  constructor
  · rfl
  · decide

/-- C1 (amended): for every candidate token the app matcher is queried, and
when it reports the address executable the resolver is invoked against the app
image; the ROM matcher is consulted exactly when a ROM image is configured and
the app side produced no translation — because the app matcher did not match,
or because the app-side resolution itself returned none. -/
theorem c1_rom_fallback (cfg : DecodeCfg) (t : List Char) (st : LoggerState)
    (tok : List Char) :
    Effect.queryApp (parseHex tok) ∈ (handleToken cfg t st tok).2
      ∧ (cfg.appExec (parseHex tok) = true →
          Effect.resolveApp tok ∈ (handleToken cfg t st tok).2)
      ∧ (Effect.queryRom (parseHex tok) ∈ (handleToken cfg t st tok).2
          ↔ cfg.hasRom = true
            ∧ (if cfg.appExec (parseHex tok) = true then cfg.lookup tok false
               else none) = none) := by
  simp only [handleToken, tokTranslation]
  by_cases ha : cfg.appExec (parseHex tok) = true
  · by_cases hl : cfg.lookup tok false = none
    · by_cases hr : cfg.hasRom = true
      · by_cases hrex : cfg.romExec (parseHex tok) = true
        · cases hlr : cfg.lookup tok true with
          | none => simp [ha, hl, hr, hrex, hlr]
          | some m =>
            simp [ha, hl, hr, hrex, hlr, queryRom_not_mem_print t Channel.warn]
        · simp [ha, hl, hr, hrex]
      · simp [ha, hl, hr]
    · by_cases hr : cfg.hasRom = true <;>
        · obtain ⟨m, hm⟩ := Option.ne_none_iff_exists'.mp hl
          simp [ha, hl, hr, hm, queryRom_not_mem_print t Channel.warn,
            resolveApp_not_mem_print t Channel.warn]
  · by_cases hr : cfg.hasRom = true
    · by_cases hrex : cfg.romExec (parseHex tok) = true
      · cases hlr : cfg.lookup tok true with
        | none => simp [ha, hr, hrex, hlr]
        | some m =>
          simp [ha, hr, hrex, hlr, queryRom_not_mem_print t Channel.warn]
      · simp [ha, hr, hrex]
    · simp [ha, hr]

/-- C1 witness: a token the app matcher rejects, with a ROM image configured,
leads to a ROM query. -/
theorem c1_rom_fallback_witness :
    c6Cfg.appExec (parseHex "0x12345678".toList) = false
      ∧ (Effect.queryRom (parseHex "0x12345678".toList) ∈
            (handleToken c1Cfg ['T'] plainState "0x12345678".toList).2
          ↔ c1Cfg.hasRom = true
            ∧ (if c1Cfg.appExec (parseHex "0x12345678".toList) = true then
                c1Cfg.lookup "0x12345678".toList false else none) = none) :=
  ⟨by decide, (c1_rom_fallback c1Cfg ['T'] plainState "0x12345678".toList).2.2⟩

/-- C2 counterexample: the claim quantifies over every fixed timestamp string;
with the timestamp text `"\nT"` (line prefix `"\nT "`), splitting the input
`"a\nb"` at the line boundary produces different console output than
delivering it in one chunk, although timestamps and output are enabled and all
chunks are non-empty. -/
theorem c2_counterexample :
    tsState.timestamps = true ∧ tsState.output_enabled = true
      ∧ (∀ c ∈ ["a\n".toList, "b".toList], c ≠ [])
      ∧ ¬ (consoleBytes Channel.console
            (printChunks "\nT".toList Channel.console tsState
              ["a\n".toList, "b".toList]).2
          = consoleBytes Channel.console
            (Logger.print "\nT".toList Channel.console tsState
              (["a\n".toList, "b".toList].flatten)).2) := by
  refine ⟨rfl, rfl, by decide, by decide⟩

/-- C2 (amended): for every logical input, every split of it into non-empty
chunks, and every fixed timestamp string whose line prefix (timestamp text
plus separator) does not contain the newline character — the restriction the
counterexample forces — the console output of printing the chunks in sequence
equals the console output of printing the whole input in one call, and the
final line-start state agrees; timestamps therefore appear exactly once per
logical line, independent of chunk boundaries. -/
theorem c2_chunk_invariance (t : List Char) (ch : Channel) (st : LoggerState)
    (cs : List (List Char)) (hne : ∀ c ∈ cs, c ≠ []) (hts : st.timestamps = true)
    (hout : st.output_enabled = true) (hp : '\n' ∉ t ++ [' ']) :
    consoleBytes ch (printChunks t ch st cs).2
        = consoleBytes ch (Logger.print t ch st cs.flatten).2
      ∧ (printChunks t ch st cs).1.start_of_line
        = (Logger.print t ch st cs.flatten).1.start_of_line :=
  printChunks_join t ch cs st hne hts hout hp

/-- C2 witness: a concrete split (`"abc"` then `"def\n"`, the spec's scenario)
with a newline-free timestamp string. -/
theorem c2_chunk_invariance_witness :
    (∀ c ∈ ["abc".toList, "def\n".toList], c ≠ [])
      ∧ tsState.timestamps = true ∧ tsState.output_enabled = true
      ∧ ('\n' ∉ "12:00".toList ++ [' '])
      ∧ consoleBytes Channel.console
          (printChunks "12:00".toList Channel.console tsState
            ["abc".toList, "def\n".toList]).2
        = consoleBytes Channel.console
          (Logger.print "12:00".toList Channel.console tsState
            (["abc".toList, "def\n".toList].flatten)).2 :=
  ⟨by decide, rfl, rfl, by decide,
    (c2_chunk_invariance "12:00".toList Channel.console tsState
      ["abc".toList, "def\n".toList] (by decide) rfl rfl (by decide)).1⟩
